import Mathlib

/-!
Shallow embedding of the hr2o-scheduler-ai shift-assignment engine
(backend/python_solver: solver/engine.py, scorer/model.py, routers/worker.py)
together with proofs of the behavioural properties claimed for it.

Conventions used throughout the embedding:
- Python strings are Lean `String`; role/name normalisation works over
  `List Char` so that substring tests are list-infix tests.
- Calendar dates are integers counting days, with day 0 falling on a Monday;
  `datetime.date` comparisons become integer comparisons and day subtraction
  becomes integer subtraction, exactly as the source uses them.
- Times of day are (hour, minute) pairs of naturals; engine.py only ever
  consumes them through get_minutes (h*60+m).
- Python float arithmetic is modelled with `Rat`; every constant involved
  (0.5, 0.3, 0.2, 0.1, 0.01, 0.99, 0.7, 0.9) is exact in the model.
- Values that reach the engine from outside (solver decision values, neural
  network outputs, parsed external dates) are universally quantified
  parameters.
-/

namespace HR2O

/-- Whitespace characters removed by the Python default str.strip / str.split. -/
def isPySpace (c : Char) : Bool :=
  c == ' ' || c == '\t' || c == '\n' || c == '\r' || c == '\x0b' || c == '\x0c'

/-- Python str.strip over a character list. -/
def pyStrip (cs : List Char) : List Char :=
  ((cs.dropWhile isPySpace).reverse.dropWhile isPySpace).reverse

/-- Python str.upper over a character list (ASCII, which covers the data model). -/
def pyUpper (cs : List Char) : List Char := cs.map Char.toUpper

/-- Python truthiness chain `a or b or ... or ""` over optional strings:
the first truthy (present and non-empty) value, or the empty string. -/
def firstTruthy : List (Option String) → String
  | [] => ""
  | some s :: rest => if s == "" then firstTruthy rest else s
  | none :: rest => firstTruthy rest

/-- engine.py norm_role: `str(r or "").strip().upper()` as a character list. -/
def normRole (r : Option String) : List Char :=
  pyUpper (pyStrip (firstTruthy [r]).data)

/-- The wildcard role recognised by the eligibility filter. -/
def workerRole : List Char := "WORKER".data

/-- Employee record as consumed by solve_schedule (engine.py).  Only the keys
the engine reads are modelled; `dtHired`/`dtDismissed` hold the result of the
`datetime.fromisoformat(...).date()` parse, with `none` standing for an
absent or unparseable value (the engine swallows the parse failure). -/
structure Emp where
  idField : Option String
  employeeId : Option String
  externalId : Option String
  fullName : Option String
  nameField : Option String
  role : Option String
  dtHired : Option Int
  dtDismissed : Option Int
  laborProfileId : Option String
deriving DecidableEq, Repr

/-- Shift requirement record as consumed by solve_schedule (engine.py). -/
structure Shift where
  sid : String
  date : Int
  startH : Nat
  startM : Nat
  endH : Nat
  endM : Nat
  role : Option String
  activityId : Option String
deriving DecidableEq, Repr

/-- Python substring test `a in b` on normalised role strings. -/
def strContains (b a : List Char) : Bool := decide (List.IsInfix a b)

/-- engine.py eligibility test, lines 414-421: `is_worker_match or strict_match`. -/
def roleEligible (eRole sRole : List Char) : Bool :=
  (eRole == workerRole || sRole == workerRole)
    || (eRole == sRole || strContains sRole eRole || strContains eRole sRole)

/-- engine.py contract-window test, lines 423-425: the pair is skipped when the
shift date is before the hire date or after the dismissal date (missing or
unparseable dates impose no bound). -/
def contractOk (e : Emp) (s : Shift) : Bool :=
  (match e.dtHired with
   | none => true
   | some h => !(s.date < h))
  && (match e.dtDismissed with
      | none => true
      | some d => !(s.date > d))

/-- Full per-pair eligibility check of engine.py lines 411-425. -/
def eligiblePair (e : Emp) (s : Shift) : Bool :=
  roleEligible (normRole e.role) (normRole s.role) && contractOk e s

/-- Sparse assignment-variable creation, engine.py lines 397-431: a decision
variable `x[(e_idx, s_idx)]` exists exactly for the pairs this list contains,
enumerated with the employee loop outside and the shift loop inside. -/
def buildPairs (emps : List Emp) (shifts : List Shift) : List (Nat × Nat) :=
  (List.range emps.length).flatMap fun eIdx =>
    (List.range shifts.length).filterMap fun sIdx =>
      match emps.get? eIdx, shifts.get? sIdx with
      | some e, some s => if eligiblePair e s then some (eIdx, sIdx) else none
      | _, _ => none

theorem mem_buildPairs {emps : List Emp} {shifts : List Shift} {eIdx sIdx : Nat} :
    (eIdx, sIdx) ∈ buildPairs emps shifts ↔
      ∃ e s, emps.get? eIdx = some e ∧ shifts.get? sIdx = some s ∧
        eligiblePair e s = true := by
  unfold buildPairs
  simp only [List.mem_flatMap, List.mem_filterMap, List.mem_range]
  constructor
  · rintro ⟨a, ha, b, hb, hmatch⟩
    cases he : emps.get? a with
    | none => rw [he] at hmatch; simp at hmatch
    | some e =>
      cases hs : shifts.get? b with
      | none => rw [he, hs] at hmatch; simp at hmatch
      | some s =>
        rw [he, hs] at hmatch
        by_cases helig : eligiblePair e s = true
        · simp [helig] at hmatch
          obtain ⟨h1, h2⟩ := hmatch
          subst h1; subst h2
          exact ⟨e, s, he, hs, helig⟩
        · simp [helig] at hmatch
  · rintro ⟨e, s, he, hs, helig⟩
    refine ⟨eIdx, ?_, sIdx, ?_, ?_⟩
    · exact List.get?_eq_some.mp he |>.1
    · exact List.get?_eq_some.mp hs |>.1
    · rw [he, hs]; simp [helig]

/-- Role compatibility exactly as the specification words it (spec §4.1):
equal, one contains the other as a substring, or either side is WORKER. -/
def specRoleCompatible (eRole sRole : List Char) : Bool :=
  eRole == sRole || strContains sRole eRole || strContains eRole sRole
    || eRole == workerRole || sRole == workerRole

/-- Contract-window condition exactly as the specification words it:
the shift date is not before the hire date nor after the dismissal date. -/
def specDateWindowOk (e : Emp) (s : Shift) : Bool :=
  (match e.dtHired with
   | none => true
   | some h => decide (h ≤ s.date))
  && (match e.dtDismissed with
      | none => true
      | some d => decide (s.date ≤ d))

/-- Pair eligibility as claimed by the specification. -/
def specEligiblePair (e : Emp) (s : Shift) : Bool :=
  specRoleCompatible (normRole e.role) (normRole s.role) && specDateWindowOk e s

theorem roleEligible_eq_spec (a b : List Char) :
    roleEligible a b = specRoleCompatible a b := by
  unfold roleEligible specRoleCompatible
  cases a == workerRole <;> cases b == workerRole <;> cases a == b <;>
    cases strContains b a <;> cases strContains a b <;> rfl

theorem contractOk_eq_spec (e : Emp) (s : Shift) :
    contractOk e s = specDateWindowOk e s := by
  unfold contractOk specDateWindowOk
  cases e.dtHired <;> cases e.dtDismissed <;>
    simp [← decide_not, Int.not_lt, decide_eq_decide]

theorem eligiblePair_eq_spec (e : Emp) (s : Shift) :
    eligiblePair e s = specEligiblePair e s := by
  unfold eligiblePair specEligiblePair
  rw [roleEligible_eq_spec, contractOk_eq_spec]

/-- Claim C4: an assignment variable exists for a (worker, shift) pair if and
only if the normalized (uppercased, trimmed) roles are equal, one contains the
other as a substring, or either side equals the wildcard role WORKER, and
additionally the shift date is not before the hire date of the worker nor
after the dismissal date; ineligible pairs never get a variable. -/
theorem c4_assignment_variable_iff_eligible (emps : List Emp) (shifts : List Shift)
    (eIdx sIdx : Nat) :
    (eIdx, sIdx) ∈ buildPairs emps shifts ↔
      ∃ e s, emps.get? eIdx = some e ∧ shifts.get? sIdx = some s ∧
        specEligiblePair e s = true := by
  rw [mem_buildPairs]
  constructor <;> rintro ⟨e, s, he, hs, h⟩ <;>
    exact ⟨e, s, he, hs, by rw [eligiblePair_eq_spec] at *; exact h⟩

/-- Abort raised by the pre-allocation resource guard (engine.py line 388
raises MemoryError before any pair variable or feature is created). -/
inductive SolveAbort where
  | capacityError
deriving DecidableEq, Repr

/-- engine.py lines 385-431: the size guard runs first, and only when it
passes does the engine enumerate per-pair variables and features. -/
def pairGenerationPhase (emps : List Emp) (shifts : List Shift) :
    Except SolveAbort (List (Nat × Nat)) :=
  if emps.length * shifts.length > 1000000 then .error .capacityError
  else .ok (buildPairs emps shifts)

/-- Claim C8: whenever workers times shifts exceeds the configured ceiling of
1,000,000 the solve fails fast with a capacity error before any per-pair
variables or features are built, and otherwise the full eligible-pair set is
produced with no truncation. -/
theorem c8_capacity_guard (emps : List Emp) (shifts : List Shift) :
    (emps.length * shifts.length > 1000000 →
      pairGenerationPhase emps shifts = .error .capacityError) ∧
    (emps.length * shifts.length ≤ 1000000 →
      pairGenerationPhase emps shifts = .ok (buildPairs emps shifts) ∧
      ∀ eIdx sIdx e s, emps.get? eIdx = some e → shifts.get? sIdx = some s →
        eligiblePair e s = true → (eIdx, sIdx) ∈ buildPairs emps shifts) := by
  constructor
  · intro h
    unfold pairGenerationPhase
    rw [if_pos h]
  · intro h
    refine ⟨by unfold pairGenerationPhase; rw [if_neg (by omega)], ?_⟩
    intro eIdx sIdx e s he hs helig
    exact mem_buildPairs.mpr ⟨e, s, he, hs, helig⟩

/-- Employee record with every optional field absent. -/
def blankEmp : Emp := ⟨none, none, none, none, none, none, none, none, none⟩

/-- Minimal shift record used by concrete witnesses. -/
def blankShift : Shift := ⟨"s", 0, 8, 0, 16, 0, none, none⟩

/-- Witness for C8: a 1001 x 1000 instance trips the guard. -/
theorem c8_capacity_guard_witness :
    (List.replicate 1001 blankEmp).length * (List.replicate 1000 blankShift).length
        > 1000000 ∧
      pairGenerationPhase (List.replicate 1001 blankEmp)
          (List.replicate 1000 blankShift) = .error .capacityError := by
  have hgt : (List.replicate 1001 blankEmp).length
      * (List.replicate 1000 blankShift).length > 1000000 := by
    rw [List.length_replicate, List.length_replicate]; norm_num
  exact ⟨hgt,
    (c8_capacity_guard (List.replicate 1001 blankEmp)
      (List.replicate 1000 blankShift)).1 hgt⟩

/-- Characters kept by the regex `[^A-Z0-9\s]` removal in engine.py
normalize_name (applied after upper-casing). -/
def keepNameChar (c : Char) : Bool :=
  (65 ≤ c.toNat && c.toNat ≤ 90) || (48 ≤ c.toNat && c.toNat ≤ 57) || isPySpace c

/-- Python str.split with no argument: words separated by whitespace runs,
with no empty words.  The accumulator holds the current word reversed. -/
def pySplitGo : List Char → List Char → List (List Char)
  | [], cur => if cur.isEmpty then [] else [cur.reverse]
  | c :: rest, cur =>
    if isPySpace c then
      if cur.isEmpty then pySplitGo rest [] else cur.reverse :: pySplitGo rest []
    else pySplitGo rest (c :: cur)

/-- Python str.split with no argument. -/
def pySplitWords (cs : List Char) : List (List Char) := pySplitGo cs []

/-- Lexicographic strict order on character lists by code point, the order
Python sorted uses on strings. -/
def strLtB : List Char → List Char → Bool
  | [], [] => false
  | [], _ :: _ => true
  | _ :: _, [] => false
  | a :: as, b :: bs =>
    if a.toNat < b.toNat then true
    else if b.toNat < a.toNat then false
    else strLtB as bs

/-- Insertion into an ascending word list.  Python sorted is a stable
comparison sort; words comparing equal here are identical strings, so any
comparison sort produces the same output list. -/
def insertWord (w : List Char) : List (List Char) → List (List Char)
  | [] => [w]
  | v :: vs => if strLtB v w then v :: insertWord w vs else w :: v :: vs

/-- Ascending sort of the word list, modelling Python sorted. -/
def sortWords (ws : List (List Char)) : List (List Char) :=
  ws.foldl (fun acc w => insertWord w acc) []

/-- Glue words back together with single spaces, modelling " ".join(words). -/
def joinSpace (ws : List (List Char)) : List Char := (ws.intersperse [' ']).flatten

/-- engine.py normalize_name: upper-case, strip everything outside
[A-Z0-9\s], split into words, sort the words, join with spaces. -/
def normalizeName (s : String) : List Char :=
  if s == "" then []
  else joinSpace (sortWords (pySplitWords ((pyUpper s.data).filter keepNameChar)))

/-- Deduplication key 1, engine.py line 47:
`str(emp.get("id") or emp.get("employee_id") or emp.get("external_id") or "").strip()`. -/
def empEid (e : Emp) : String :=
  String.mk (pyStrip (firstTruthy [e.idField, e.employeeId, e.externalId]).data)

/-- Deduplication key 2, engine.py line 48:
`normalize_name(emp.get("fullName") or emp.get("name") or "")`. -/
def empFname (e : Emp) : List Char :=
  normalizeName (firstTruthy [e.fullName, e.nameField])

/-- engine.py lines 45-57: one pass over the employee list, dropping records
with an empty id or empty normalised name, and keeping the first record for
each id and each normalised name. -/
def dedupGo : List Emp → List (List Char) → List String → List Emp
  | [], _, _ => []
  | e :: rest, seenNames, seenIds =>
    let eid := empEid e
    let fn := empFname e
    if eid == "" || fn == [] then dedupGo rest seenNames seenIds
    else if !seenNames.contains fn && !seenIds.contains eid then
      e :: dedupGo rest (fn :: seenNames) (eid :: seenIds)
    else dedupGo rest seenNames seenIds

/-- The deduplicated employee list. -/
def dedupEmployees (es : List Emp) : List Emp := dedupGo es [] []

/-- engine.py lines 59-61: the engine swaps in the deduplicated list only when
it is strictly shorter; `usedEmployees_eq_dedup` shows the guard is
immaterial. -/
def usedEmployees (es : List Emp) : List Emp :=
  if (dedupEmployees es).length < es.length then dedupEmployees es else es

theorem dedupGo_sublist (es : List Emp) :
    ∀ seenNames seenIds, List.Sublist (dedupGo es seenNames seenIds) es := by
  induction es with
  | nil => intro _ _; simp [dedupGo]
  | cons e rest ih =>
    intro seenNames seenIds
    unfold dedupGo
    by_cases h1 : (empEid e == "" || empFname e == []) = true
    · rw [if_pos h1]
      exact (ih _ _).trans (List.sublist_cons_self e rest)
    · rw [if_neg h1]
      by_cases h2 : (!seenNames.contains (empFname e)
          && !seenIds.contains (empEid e)) = true
      · rw [if_pos h2]
        exact (ih _ _).cons₂ e
      · rw [if_neg h2]
        exact (ih _ _).trans (List.sublist_cons_self e rest)

theorem usedEmployees_eq_dedup (es : List Emp) :
    usedEmployees es = dedupEmployees es := by
  unfold usedEmployees
  by_cases h : (dedupEmployees es).length < es.length
  · rw [if_pos h]
  · rw [if_neg h]
    have hsub : List.Sublist (dedupEmployees es) es := dedupGo_sublist es [] []
    exact (hsub.eq_of_length (Nat.le_antisymm hsub.length_le (Nat.le_of_not_lt h))).symm

theorem dedupGo_invariant (es : List Emp) :
    ∀ seenNames seenIds,
      (∀ d ∈ dedupGo es seenNames seenIds,
        empEid d ≠ "" ∧ empFname d ≠ [] ∧
        seenIds.contains (empEid d) = false ∧
        seenNames.contains (empFname d) = false) ∧
      ((dedupGo es seenNames seenIds).map empEid).Nodup ∧
      ((dedupGo es seenNames seenIds).map empFname).Nodup ∧
      (∀ e ∈ es, empEid e ≠ "" → empFname e ≠ [] →
        seenIds.contains (empEid e) = false →
        seenNames.contains (empFname e) = false →
        ∃ d ∈ dedupGo es seenNames seenIds,
          empEid d = empEid e ∨ empFname d = empFname e) := by
  induction es with
  | nil => intro _ _; simp [dedupGo]
  | cons e rest ih =>
    intro seenNames seenIds
    unfold dedupGo
    by_cases h1 : (empEid e == "" || empFname e == []) = true
    · rw [if_pos h1]
      obtain ⟨hv, hn1, hn2, hc⟩ := ih seenNames seenIds
      refine ⟨hv, hn1, hn2, ?_⟩
      intro f hf hfe hff hsi hsn
      rcases List.mem_cons.mp hf with rfl | hf2
      · exfalso
        simp only [Bool.or_eq_true] at h1
        rcases h1 with h | h
        · exact hfe (by simpa using h)
        · exact hff (by simpa using h)
      · exact hc f hf2 hfe hff hsi hsn
    · rw [if_neg h1]
      have hvalid : empEid e ≠ "" ∧ empFname e ≠ [] := by
        constructor
        · intro h; apply h1; simp [h]
        · intro h; apply h1; simp [h]
      by_cases h2 : (!seenNames.contains (empFname e)
          && !seenIds.contains (empEid e)) = true
      · rw [if_pos h2]
        have h2b := h2
        simp only [Bool.and_eq_true] at h2b
        obtain ⟨hfreshN, hfreshI⟩ := h2b
        obtain ⟨hv, hn1, hn2, hc⟩ :=
          ih (empFname e :: seenNames) (empEid e :: seenIds)
        refine ⟨?_, ?_, ?_, ?_⟩
        · intro d hd
          rcases List.mem_cons.mp hd with rfl | hd2
          · exact ⟨hvalid.1, hvalid.2, by simpa using hfreshI, by simpa using hfreshN⟩
          · obtain ⟨q1, q2, q3, q4⟩ := hv d hd2
            simp only [List.contains_cons, Bool.or_eq_false_iff] at q3 q4
            exact ⟨q1, q2, q3.2, q4.2⟩
        · rw [List.map_cons, List.nodup_cons]
          refine ⟨?_, hn1⟩
          intro hmem
          rcases List.mem_map.mp hmem with ⟨d, hd, heq⟩
          obtain ⟨_, _, q3, _⟩ := hv d hd
          simp only [List.contains_cons, Bool.or_eq_false_iff] at q3
          exact absurd heq (by simpa using q3.1)
        · rw [List.map_cons, List.nodup_cons]
          refine ⟨?_, hn2⟩
          intro hmem
          rcases List.mem_map.mp hmem with ⟨d, hd, heq⟩
          obtain ⟨_, _, _, q4⟩ := hv d hd
          simp only [List.contains_cons, Bool.or_eq_false_iff] at q4
          exact absurd heq (by simpa using q4.1)
        · intro f hf hfe hff hsi hsn
          rcases List.mem_cons.mp hf with rfl | hf2
          · exact ⟨f, List.mem_cons_self _ _, Or.inl rfl⟩
          · by_cases hfid : empEid f = empEid e
            · exact ⟨e, List.mem_cons_self _ _, Or.inl hfid.symm⟩
            · by_cases hfname : empFname f = empFname e
              · exact ⟨e, List.mem_cons_self _ _, Or.inr hfname.symm⟩
              · have hsi2 : (empEid e :: seenIds).contains (empEid f) = false := by
                  simp only [List.contains_cons, Bool.or_eq_false_iff]
                  exact ⟨by simpa using hfid, hsi⟩
                have hsn2 : (empFname e :: seenNames).contains (empFname f) = false := by
                  simp only [List.contains_cons, Bool.or_eq_false_iff]
                  exact ⟨by simpa using hfname, hsn⟩
                obtain ⟨d, hd, hor⟩ := hc f hf2 hfe hff hsi2 hsn2
                exact ⟨d, List.mem_cons_of_mem _ hd, hor⟩
      · rw [if_neg h2]
        obtain ⟨hv, hn1, hn2, hc⟩ := ih seenNames seenIds
        refine ⟨hv, hn1, hn2, ?_⟩
        intro f hf hfe hff hsi hsn
        rcases List.mem_cons.mp hf with rfl | hf2
        · exfalso
          apply h2
          rw [hsn, hsi]
          rfl
        · exact hc f hf2 hfe hff hsi hsn

/-- Claim C10: before any scheduling the employee list is deduplicated — an
employee whose stripped id or word-sorted alphanumeric-normalised full name
was already seen is dropped keeping the first occurrence, an employee with a
missing or empty id or name is removed entirely, and every assignment
variable references an employee of the deduplicated list only. -/
theorem c10_employee_dedup (es : List Emp) (shifts : List Shift) :
    usedEmployees es = dedupEmployees es ∧
    (∀ d ∈ dedupEmployees es, empEid d ≠ "" ∧ empFname d ≠ []) ∧
    ((dedupEmployees es).map empEid).Nodup ∧
    ((dedupEmployees es).map empFname).Nodup ∧
    (∀ e ∈ es, empEid e ≠ "" → empFname e ≠ [] →
      ∃ d ∈ dedupEmployees es, empEid d = empEid e ∨ empFname d = empFname e) ∧
    (∀ e ∈ es, (empEid e = "" ∨ empFname e = []) → e ∉ dedupEmployees es) ∧
    (∀ eIdx sIdx, (eIdx, sIdx) ∈ buildPairs (usedEmployees es) shifts →
      ∃ d, (dedupEmployees es).get? eIdx = some d ∧
        empEid d ≠ "" ∧ empFname d ≠ []) := by
  obtain ⟨hv, hn1, hn2, hc⟩ := dedupGo_invariant es [] []
  have hdef : dedupEmployees es = dedupGo es [] [] := rfl
  refine ⟨usedEmployees_eq_dedup es, ?_, ?_, ?_, ?_, ?_, ?_⟩
  · intro d hd
    obtain ⟨q1, q2, _, _⟩ := hv d (hdef ▸ hd)
    exact ⟨q1, q2⟩
  · exact hdef ▸ hn1
  · exact hdef ▸ hn2
  · intro e he h1 h2
    exact hdef ▸ hc e he h1 h2 rfl rfl
  · intro e _ hbad hmem
    obtain ⟨q1, q2, _, _⟩ := hv e (hdef ▸ hmem)
    rcases hbad with h | h
    · exact q1 h
    · exact q2 h
  · intro eIdx sIdx hmem
    rw [usedEmployees_eq_dedup] at hmem
    obtain ⟨d, s, hd, _, _⟩ := mem_buildPairs.mp hmem
    obtain ⟨q1, q2, _, _⟩ := hv d (hdef ▸ List.get?_mem hd)
    exact ⟨d, hd, q1, q2⟩

/-- Employee with id 1 and a two-word name. -/
def sampleGoodEmp : Emp :=
  { blankEmp with idField := some "1", fullName := some "Mario Rossi" }

/-- Employee whose different id carries a name that normalises to the same
word-sorted form as sampleGoodEmp. -/
def sampleDupEmp : Emp :=
  { blankEmp with idField := some "2", fullName := some "Rossi  Mario" }

/-- Employee with a name but no identifier in any of the three id fields. -/
def sampleNoIdEmp : Emp :=
  { blankEmp with fullName := some "Luigi Verdi" }

/-- Concrete employee list exercising both dedup rules. -/
def sampleEmployees : List Emp := [sampleGoodEmp, sampleDupEmp, sampleNoIdEmp]

/-- Witness for C10 on a concrete list: the id-less employee is removed, and
only the first occurrence of the duplicated normalised name survives. -/
theorem c10_employee_dedup_witness :
    usedEmployees sampleEmployees = dedupEmployees sampleEmployees ∧
    sampleNoIdEmp ∉ dedupEmployees sampleEmployees ∧
    dedupEmployees sampleEmployees = [sampleGoodEmp] := by
  refine ⟨(c10_employee_dedup sampleEmployees []).1, ?_, by decide⟩
  exact (c10_employee_dedup sampleEmployees []).2.2.2.2.2.1 sampleNoIdEmp
    (by decide) (Or.inl (by decide))

/-- Python truthiness of an optional string. -/
def truthyOptStr (o : Option String) : Bool :=
  match o with
  | some s => s != ""
  | none => false

/-- Python `str(v)` of a value that may be absent: `str(None)` is "None". -/
def pyStrOfOpt (o : Option String) : String :=
  match o with
  | some s => s
  | none => "None"

/-- Python `a or b or c`: the first truthy operand, else the last operand. -/
def pyOr3 (a b c : Option String) : Option String :=
  if truthyOptStr a then a else if truthyOptStr b then b else c

/-- Python `a or b`: the first operand when truthy, else the second. -/
def pyOr2 (a b : Option String) : Option String :=
  if truthyOptStr a then a else b

/-- One output record of solve_schedule (engine.py lines 858-872 and 878-890).
Fields not read by any verified property (project, labor_profile_id) are
elided; `absenceRisk` is `none` on unassigned records because the source dict
omits the absence_risk key there. -/
structure ResultRec where
  rid : String
  date : Int
  employeeId : String
  employeeName : Option String
  startH : Nat
  startM : Nat
  endH : Nat
  endM : Nat
  role : Option String
  activityId : Option String
  affinity : Rat
  absenceRisk : Option Rat
  isUnassigned : Bool
deriving DecidableEq, Repr

/-- Assigned record, engine.py lines 858-872.  `affPct` is the integer
affinity from affinity_map (default 0) and `risk` the absence probability. -/
def assignedRecord (e : Emp) (s : Shift) (affPct : Int) (risk : Rat) : ResultRec :=
  { rid := s.sid
    date := s.date
    employeeId := pyStrOfOpt (pyOr3 e.idField e.employeeId e.externalId)
    employeeName := pyOr2 e.fullName e.nameField
    startH := s.startH
    startM := s.startM
    endH := s.endH
    endM := s.endM
    role := s.role
    activityId := some (s.activityId.getD "")
    affinity := (affPct : Rat) / 100
    absenceRisk := some risk
    isUnassigned := false }

/-- Unassigned record, engine.py lines 878-890. -/
def unassignedRecord (s : Shift) : ResultRec :=
  { rid := s.sid
    date := s.date
    employeeId := "unassigned"
    employeeName := some "Unassigned"
    startH := s.startH
    startM := s.startM
    endH := s.endH
    endM := s.endM
    role := s.role
    activityId := s.activityId
    affinity := 0
    absenceRisk := none
    isUnassigned := true }

/-- Inner loop of result materialization (engine.py lines 852-874): scan the
employees in index order and stop at the first pair variable whose solver
value is true.  `sol` abstracts `solver.Value`. -/
def findAssignedWorker (pairs : List (Nat × Nat)) (sol : Nat → Nat → Bool)
    (numEmps sIdx : Nat) : Option Nat :=
  (List.range numEmps).find? fun eIdx =>
    decide ((eIdx, sIdx) ∈ pairs) && sol eIdx sIdx

/-- Record produced for the shift with index `sIdx` (engine.py lines 850-890);
`aff` abstracts affinity_map.get with default 0 and `risk` abstracts
absence_map.get with default 0.0. -/
def materializeOne (emps : List Emp) (pairs : List (Nat × Nat))
    (sol : Nat → Nat → Bool) (aff : Nat → Nat → Int) (risk : Nat → Int → Rat)
    (hasSol : Bool) (sIdx : Nat) (s : Shift) : ResultRec :=
  match (if hasSol then findAssignedWorker pairs sol emps.length sIdx else none) with
  | some eIdx =>
      assignedRecord (emps.getD eIdx blankEmp) s (aff eIdx sIdx) (risk eIdx s.date)
  | none => unassignedRecord s

/-- Result materialization loop over the shifts in input order. -/
def materializeGo (emps : List Emp) (pairs : List (Nat × Nat))
    (sol : Nat → Nat → Bool) (aff : Nat → Nat → Int) (risk : Nat → Int → Rat)
    (hasSol : Bool) : Nat → List Shift → List ResultRec
  | _, [] => []
  | sIdx, s :: rest =>
      materializeOne emps pairs sol aff risk hasSol sIdx s ::
        materializeGo emps pairs sol aff risk hasSol (sIdx + 1) rest

/-- engine.py lines 850-890: the guaranteed result list, one record per input
shift, iterated in the original input order. -/
def materializeResults (emps : List Emp) (shifts : List Shift)
    (pairs : List (Nat × Nat)) (sol : Nat → Nat → Bool) (aff : Nat → Nat → Int)
    (risk : Nat → Int → Rat) (hasSol : Bool) : List ResultRec :=
  materializeGo emps pairs sol aff risk hasSol 0 shifts

theorem materializeGo_length (emps pairs sol aff risk hasSol) :
    ∀ k (shifts : List Shift),
      (materializeGo emps pairs sol aff risk hasSol k shifts).length = shifts.length := by
  intro k shifts
  induction shifts generalizing k with
  | nil => rfl
  | cons s rest ih => simp [materializeGo, ih]

theorem materializeGo_get? (emps pairs sol aff risk hasSol) :
    ∀ k (shifts : List Shift) i,
      (materializeGo emps pairs sol aff risk hasSol k shifts).get? i =
        (shifts.get? i).map (materializeOne emps pairs sol aff risk hasSol (k + i)) := by
  intro k shifts
  induction shifts generalizing k with
  | nil => intro i; simp [materializeGo]
  | cons s rest ih =>
    intro i
    cases i with
    | zero => simp [materializeGo]
    | succ j =>
      simp only [materializeGo, List.get?_cons_succ]
      rw [ih (k + 1) j]
      have harith : k + 1 + j = k + (j + 1) := by omega
      rw [harith]

/-- Constraint A of engine.py lines 513-516: how many eligible pair variables
are true for one shift. -/
def coverageCount (pairs : List (Nat × Nat)) (sol : Nat → Nat → Bool)
    (numEmps sIdx : Nat) : Nat :=
  ((List.range numEmps).filter fun eIdx =>
    decide ((eIdx, sIdx) ∈ pairs) && sol eIdx sIdx).length

/-- Constraint A of engine.py lines 513-516 over the whole model:
`sum(eligible_vars) + unassigned[s_idx] == 1` for every shift. -/
def coverageSat (pairs : List (Nat × Nat)) (sol : Nat → Nat → Bool)
    (uns : Nat → Bool) (numEmps numShifts : Nat) : Bool :=
  (List.range numShifts).all fun sIdx =>
    coverageCount pairs sol numEmps sIdx + (if uns sIdx then 1 else 0) == 1

theorem findAssignedWorker_some {pairs sol numEmps sIdx eIdx}
    (h : findAssignedWorker pairs sol numEmps sIdx = some eIdx) :
    eIdx < numEmps ∧ (eIdx, sIdx) ∈ pairs ∧ sol eIdx sIdx = true := by
  unfold findAssignedWorker at h
  have hmem := List.mem_of_find?_eq_some h
  have hpred := List.find?_some h
  simp only [Bool.and_eq_true, decide_eq_true_eq] at hpred
  exact ⟨List.mem_range.mp hmem, hpred.1, hpred.2⟩

theorem findAssignedWorker_none {pairs sol numEmps sIdx}
    (h : findAssignedWorker pairs sol numEmps sIdx = none) :
    ∀ eIdx < numEmps, ¬((eIdx, sIdx) ∈ pairs ∧ sol eIdx sIdx = true) := by
  intro eIdx hlt hcontra
  have := List.find?_eq_none.mp h eIdx (List.mem_range.mpr hlt)
  simp only [Bool.and_eq_true, decide_eq_true_eq] at this
  exact this ⟨hcontra.1, hcontra.2⟩

theorem two_le_length_of_two_mem {α : Type} {l : List α} {a b : α}
    (ha : a ∈ l) (hb : b ∈ l) (hab : a ≠ b) : 2 ≤ l.length := by
  cases l with
  | nil => cases ha
  | cons x xs =>
    cases xs with
    | nil =>
      have ha1 : a = x := by simpa using ha
      have hb1 : b = x := by simpa using hb
      exact absurd (ha1.trans hb1.symm) hab
    | cons y ys => simp [List.length_cons]

/-- Claim C1: every solve returns exactly one record per input shift, produced
by iterating the shifts in input order, and each record is either assigned to
exactly one eligible worker or carries is_unassigned true — the two cases are
mutually exclusive because they force opposite is_unassigned values. -/
theorem c1_coverage_totality (emps : List Emp) (shifts : List Shift)
    (sol : Nat → Nat → Bool) (uns : Nat → Bool) (aff : Nat → Nat → Int)
    (risk : Nat → Int → Rat) (hasSol : Bool)
    (hcov : coverageSat (buildPairs emps shifts) sol uns emps.length shifts.length
      = true) :
    (materializeResults emps shifts (buildPairs emps shifts) sol aff risk hasSol).length
        = shifts.length ∧
    ∀ sIdx s, shifts.get? sIdx = some s →
      ∃ r,
        (materializeResults emps shifts (buildPairs emps shifts) sol aff risk
          hasSol).get? sIdx = some r ∧
        r.rid = s.sid ∧ r.date = s.date ∧
        ((r.isUnassigned = true ∧ r.employeeId = "unassigned") ∨
          (r.isUnassigned = false ∧
            ∃ eIdx e, emps.get? eIdx = some e ∧
              (eIdx, sIdx) ∈ buildPairs emps shifts ∧ sol eIdx sIdx = true ∧
              eligiblePair e s = true ∧
              r.employeeId = pyStrOfOpt (pyOr3 e.idField e.employeeId e.externalId) ∧
              ∀ eIdx2, (eIdx2, sIdx) ∈ buildPairs emps shifts →
                sol eIdx2 sIdx = true → eIdx2 = eIdx)) := by
  constructor
  · exact materializeGo_length emps (buildPairs emps shifts) sol aff risk hasSol 0 shifts
  · intro sIdx s hs
    have hget := materializeGo_get? emps (buildPairs emps shifts) sol aff risk hasSol
      0 shifts sIdx
    rw [hs] at hget
    refine ⟨materializeOne emps (buildPairs emps shifts) sol aff risk hasSol sIdx s,
      by simpa using hget, ?_⟩
    unfold materializeOne
    cases hfind : (if hasSol then
        findAssignedWorker (buildPairs emps shifts) sol emps.length sIdx else none) with
    | none =>
      exact ⟨rfl, rfl, Or.inl ⟨rfl, rfl⟩⟩
    | some eIdx =>
      have hfind2 : findAssignedWorker (buildPairs emps shifts) sol emps.length sIdx
          = some eIdx := by
        cases hhs : hasSol with
        | false => rw [hhs] at hfind; simp at hfind
        | true => rw [hhs] at hfind; simpa using hfind
      obtain ⟨hlt, hmem, hsol⟩ := findAssignedWorker_some hfind2
      obtain ⟨e, s2, he, hs2, helig⟩ := mem_buildPairs.mp hmem
      have hseq : s2 = s := by
        rw [hs] at hs2
        exact (Option.some_inj.mp hs2).symm
      subst hseq
      have hgetD : emps.getD eIdx blankEmp = e := by
        rw [List.getD_eq_getElem?_getD, ← List.get?_eq_getElem?, he]
        rfl
      refine ⟨rfl, rfl, Or.inr ⟨rfl, eIdx, e, he, hmem, hsol, helig, ?_, ?_⟩⟩
      · show pyStrOfOpt (pyOr3 (emps.getD eIdx blankEmp).idField
            (emps.getD eIdx blankEmp).employeeId
            (emps.getD eIdx blankEmp).externalId) = _
        rw [hgetD]
      · intro eIdx2 hmem2 hsol2
        by_contra hne
        have hslt : sIdx < shifts.length := (List.get?_eq_some.mp hs).1
        have hcount := List.all_eq_true.mp hcov sIdx (List.mem_range.mpr hslt)
        have hcount2 : coverageCount (buildPairs emps shifts) sol emps.length sIdx
            + (if uns sIdx then 1 else 0) = 1 := by
          simpa using hcount
        have hlt2 : eIdx2 < emps.length := by
          obtain ⟨e2, s3, he2, _, _⟩ := mem_buildPairs.mp hmem2
          exact (List.get?_eq_some.mp he2).1
        have hmemf : eIdx ∈ (List.range emps.length).filter fun i =>
            decide ((i, sIdx) ∈ buildPairs emps shifts) && sol i sIdx := by
          rw [List.mem_filter]
          exact ⟨List.mem_range.mpr hlt, by simp [hmem, hsol]⟩
        have hmemf2 : eIdx2 ∈ (List.range emps.length).filter fun i =>
            decide ((i, sIdx) ∈ buildPairs emps shifts) && sol i sIdx := by
          rw [List.mem_filter]
          exact ⟨List.mem_range.mpr hlt2, by simp [hmem2, hsol2]⟩
        have h2le := two_le_length_of_two_mem hmemf hmemf2 (fun q => hne q.symm)
        unfold coverageCount at hcount2
        omega

/-- Witness for C1 on a one-worker, one-shift instance with every pair
variable true and the unassigned indicator false. -/
theorem c1_coverage_totality_witness :
    coverageSat (buildPairs [sampleGoodEmp] [blankShift]) (fun _ _ => true)
        (fun _ => false) ([sampleGoodEmp] : List Emp).length
        ([blankShift] : List Shift).length = true ∧
    (materializeResults [sampleGoodEmp] [blankShift]
        (buildPairs [sampleGoodEmp] [blankShift]) (fun _ _ => true)
        (fun _ _ => 50) (fun _ _ => 0) true).length = 1 := by
  have hcov : coverageSat (buildPairs [sampleGoodEmp] [blankShift]) (fun _ _ => true)
      (fun _ => false) ([sampleGoodEmp] : List Emp).length
      ([blankShift] : List Shift).length = true := by decide
  exact ⟨hcov, (c1_coverage_totality [sampleGoodEmp] [blankShift] (fun _ _ => true)
    (fun _ => false) (fun _ _ => 50) (fun _ _ => 0) true hcov).1⟩

theorem materializeOne_degraded (emps : List Emp) (pairs : List (Nat × Nat))
    (sol : Nat → Nat → Bool) (aff : Nat → Nat → Int) (risk : Nat → Int → Rat)
    (hasSol : Bool) (sIdx : Nat) (s : Shift)
    (h : hasSol = false ∨ emps = [] ∨ pairs = []) :
    materializeOne emps pairs sol aff risk hasSol sIdx s = unassignedRecord s := by
  unfold materializeOne
  rcases h with h | h | h
  · subst h
    rfl
  · have : findAssignedWorker pairs sol emps.length sIdx = none := by
      rw [h]
      rfl
    rw [this]
    cases hasSol <;> rfl
  · have : findAssignedWorker pairs sol emps.length sIdx = none := by
      unfold findAssignedWorker
      rw [h]
      apply List.find?_eq_none.mpr
      intro i _
      simp
    rw [this]
    cases hasSol <;> rfl

theorem mem_materializeGo {emps pairs sol aff risk hasSol} :
    ∀ {k : Nat} {shifts : List Shift} {r : ResultRec},
      r ∈ materializeGo emps pairs sol aff risk hasSol k shifts →
      ∃ i s, shifts.get? i = some s ∧
        r = materializeOne emps pairs sol aff risk hasSol (k + i) s := by
  intro k shifts
  induction shifts generalizing k with
  | nil => intro r hr; cases hr
  | cons s rest ih =>
    intro r hr
    rcases List.mem_cons.mp hr with rfl | hr2
    · exact ⟨0, s, rfl, by rw [Nat.add_zero]⟩
    · obtain ⟨i, s2, hi, hrec⟩ := ih hr2
      refine ⟨i + 1, s2, hi, ?_⟩
      have harith : k + 1 + i = k + (i + 1) := by omega
      rw [← harith]
      exact hrec

/-- Claim C2: with an unreadable solver state, zero workers, or zero eligible
pairs, the solve still completes and returns one all-unassigned record per
shift instead of failing. -/
theorem c2_graceful_degradation (emps : List Emp) (shifts : List Shift)
    (sol : Nat → Nat → Bool) (aff : Nat → Nat → Int) (risk : Nat → Int → Rat)
    (hasSol : Bool)
    (h : hasSol = false ∨ emps = [] ∨ buildPairs emps shifts = []) :
    (materializeResults emps shifts (buildPairs emps shifts) sol aff risk hasSol).length
        = shifts.length ∧
    ∀ r ∈ materializeResults emps shifts (buildPairs emps shifts) sol aff risk hasSol,
      r.isUnassigned = true ∧ r.employeeId = "unassigned" := by
  constructor
  · exact materializeGo_length emps (buildPairs emps shifts) sol aff risk hasSol 0 shifts
  · intro r hr
    obtain ⟨i, s, _, hrec⟩ := mem_materializeGo hr
    rw [hrec, materializeOne_degraded _ _ _ _ _ _ _ _ h]
    exact ⟨rfl, rfl⟩

/-- Witness for C2: a solve over one shift with an empty worker list produces
exactly one record and it is unassigned. -/
theorem c2_graceful_degradation_witness :
    (materializeResults [] [blankShift] (buildPairs [] [blankShift])
        (fun _ _ => true) (fun _ _ => 0) (fun _ _ => 0) true).length = 1 ∧
    ∀ r ∈ materializeResults [] [blankShift] (buildPairs [] [blankShift])
        (fun _ _ => true) (fun _ _ => 0) (fun _ _ => 0) true,
      r.isUnassigned = true ∧ r.employeeId = "unassigned" := by
  exact c2_graceful_degradation [] [blankShift] (fun _ _ => true) (fun _ _ => 0)
    (fun _ _ => 0) true (Or.inr (Or.inl rfl))

/-- The 11-feature vector produced by extract_features (model.py lines
271-275), with the positional indices used by the hybrid scorer named:
index 0 is roleMatch, index 4 is distance, index 10 is projectAffinity. -/
structure FeatureVec where
  roleMatch : Rat
  timeOfDay : Rat
  dayOfWeek : Rat
  ageNorm : Rat
  distance : Rat
  punctuality : Rat
  keywords : Rat
  seniority : Rat
  roleIdx : Rat
  vehicle : Rat
  projectAffinity : Rat
deriving DecidableEq, Repr

/-- Hybrid scoring of NeuralScorer.predict_affinity, model.py lines 298-331,
transcribed statement by statement; `neuralScore` abstracts the network
forward pass. -/
def predictAffinityHybrid (f : FeatureVec) (neuralScore : Rat) : Rat :=
  let h1 : Rat := 0.5
  let h2 : Rat := if f.roleMatch > 0.9 then h1 + 0.3 else h1 - 0.4
  let h3 : Rat := h2 - f.distance * 0.2
  let h4 : Rat := if f.projectAffinity > 0.9 then h3 + 0.1 else h3
  let heuristicScore : Rat := max 0.01 (min 0.99 h4)
  if heuristicScore > 0.7 then max heuristicScore neuralScore
  else if neuralScore > 0.9 then neuralScore
  else heuristicScore

/-- np.clip of one value between a lower and an upper bound. -/
def npClip (x lo hi : Rat) : Rat := min (max x lo) hi

/-- One element of the vectorized hybrid scoring of
NeuralScorer.predict_batch, model.py lines 354-396: the numpy expressions
0.5 + where(X0 > 0.9, 0.3, -0.4) - X4*0.2 + where(X10 > 0.9, 0.1, 0),
clipped, then fused with where over the neural scores.  nan_to_num is the
identity on rationals. -/
def batchScoreOne (f : FeatureVec) (n : Rat) : Rat :=
  let h : Rat := 0.5 + (if f.roleMatch > 0.9 then (0.3 : Rat) else -0.4)
    - f.distance * 0.2 + (if f.projectAffinity > 0.9 then (0.1 : Rat) else 0)
  let hc : Rat := npClip h 0.01 0.99
  if hc > 0.7 then max hc n else if n > 0.9 then n else hc

/-- Vectorized batch prediction: a single pass over all pairs. -/
def predictBatchScores (xs : List (FeatureVec × Rat)) : List Rat :=
  xs.map fun p => batchScoreOne p.1 p.2

/-- Heuristic score exactly as the claim words it: clamp(0.5 + (0.3 if
role-match > 0.9 else -0.4) - distance*0.2 + (0.1 if project-affinity > 0.9
else 0), 0.01, 0.99). -/
def specHeuristicScore (f : FeatureVec) : Rat :=
  max 0.01 (min 0.99
    (0.5 + (if f.roleMatch > 0.9 then (0.3 : Rat) else -0.4)
      - f.distance * 0.2 + (if f.projectAffinity > 0.9 then (0.1 : Rat) else 0)))

/-- Fusion rule exactly as the claim words it. -/
def specFinalScore (f : FeatureVec) (n : Rat) : Rat :=
  if specHeuristicScore f > 0.7 then max (specHeuristicScore f) n
  else if n > 0.9 then n
  else specHeuristicScore f

theorem clamp_eq (x : Rat) : max 0.01 (min 0.99 x) = min (max x 0.01) 0.99 := by
  rcases le_total x 0.01 with h1 | h1
  · rw [min_eq_right (by linarith : x ≤ (0.99 : Rat)), max_eq_left h1,
      max_eq_right h1, min_eq_left (by norm_num)]
  · rcases le_total x 0.99 with h2 | h2
    · rw [min_eq_right h2, max_eq_right h1, max_eq_left h1, min_eq_left h2]
    · rw [min_eq_left h2, max_eq_right (by norm_num : (0.01 : Rat) ≤ 0.99),
        max_eq_left h1, min_eq_right h2]

theorem singleHeuristic_eq_spec (f : FeatureVec) :
    max 0.01 (min 0.99
      ((if f.roleMatch > 0.9 then (0.5 : Rat) + 0.3 else 0.5 - 0.4)
        - f.distance * 0.2
        + (if f.projectAffinity > 0.9 then (0.1 : Rat) else 0)))
      = specHeuristicScore f := by
  unfold specHeuristicScore
  split_ifs <;> ring_nf

theorem predictAffinityHybrid_eq_spec (f : FeatureVec) (n : Rat) :
    predictAffinityHybrid f n = specFinalScore f n := by
  unfold predictAffinityHybrid specFinalScore
  simp only []
  have hmain : max 0.01 (min 0.99
      (if f.projectAffinity > 0.9
        then (if f.roleMatch > 0.9 then (0.5 : Rat) + 0.3 else 0.5 - 0.4)
          - f.distance * 0.2 + 0.1
        else (if f.roleMatch > 0.9 then (0.5 : Rat) + 0.3 else 0.5 - 0.4)
          - f.distance * 0.2)) = specHeuristicScore f := by
    rw [← singleHeuristic_eq_spec f]
    congr 1
    congr 1
    split_ifs <;> ring
  rw [hmain]

theorem batchScoreOne_eq_spec (f : FeatureVec) (n : Rat) :
    batchScoreOne f n = specFinalScore f n := by
  unfold batchScoreOne npClip specFinalScore
  simp only []
  rw [← clamp_eq]
  unfold specHeuristicScore
  rfl

/-- Claim C7: the hybrid affinity score equals the claimed formula —
heuristic = clamp(0.5 + (0.3 if role-match > 0.9 else -0.4) - distance*0.2 +
(0.1 if project-affinity > 0.9 else 0), 0.01, 0.99); final = max(heuristic,
neural) if heuristic > 0.7, else neural if neural > 0.9, else heuristic —
and the single-pair and vectorized batch predictions implement this same
rule. -/
theorem c7_hybrid_affinity_formula (f : FeatureVec) (n : Rat)
    (xs : List (FeatureVec × Rat)) :
    predictAffinityHybrid f n = specFinalScore f n ∧
    predictBatchScores xs = xs.map (fun p => specFinalScore p.1 p.2) ∧
    predictBatchScores ((f, n) :: xs)
      = predictAffinityHybrid f n :: predictBatchScores xs := by
  refine ⟨predictAffinityHybrid_eq_spec f n, ?_, ?_⟩
  · unfold predictBatchScores
    apply List.map_congr_left
    intro p _
    exact batchScoreOne_eq_spec p.1 p.2
  · unfold predictBatchScores
    rw [List.map_cons]
    rw [batchScoreOne_eq_spec, predictAffinityHybrid_eq_spec]

/-- Python values reaching the scorer inside employee / shift dictionaries
(model.py extract_features works on raw request dicts). -/
inductive PyVal where
  | vstr : String → PyVal
  | vnum : Rat → PyVal
  | vbool : Bool → PyVal
  | vdict : List (String × PyVal) → PyVal
  | vlist : List PyVal → PyVal
  | vnone : PyVal

/-- Python truthiness of a value. -/
def pyTruthy : PyVal → Bool
  | .vstr s => s != ""
  | .vnum q => q != 0
  | .vbool b => b
  | .vdict d => !d.isEmpty
  | .vlist l => !l.isEmpty
  | .vnone => false

/-- Truthiness of a lookup result; a missing key behaves like None. -/
def truthyOpt (o : Option PyVal) : Bool :=
  match o with
  | some v => pyTruthy v
  | none => false

/-- Dictionaries are association lists with unique keys. -/
abbrev Entity := List (String × PyVal)

/-- Python dict.get with default None. -/
def entGet (ent : Entity) (k : String) : Option PyVal :=
  (ent.find? (fun p => p.1 == k)).map (·.2)

/-- Python `(d or {}).get(k)` for a nested dictionary value. -/
def childGet (v : Option PyVal) (k : String) : Option PyVal :=
  match v with
  | some (.vdict d) => entGet d k
  | _ => none

/-- Python `a or b` over lookup results. -/
def pyOrV (a b : Option PyVal) : Option PyVal :=
  if truthyOpt a then a else b

/-- Python str() of an atomic value.  Compound values never reach a str()
call in the data model (addresses, ids and project ids are strings or
numbers); their renderings here are placeholders. -/
def pyValStr : PyVal → String
  | .vstr s => s
  | .vnum q => toString q
  | .vbool b => if b then "True" else "False"
  | .vdict _ => "pydict"
  | .vlist _ => "pylist"
  | .vnone => "None"

/-- Nested dotted-path walk of get_mapped_value (model.py lines 146-155):
follow every part through nested dicts; the hit counts only when each part is
found. -/
def walkPath : PyVal → List String → Option PyVal
  | v, [] => some v
  | .vdict d, p :: rest =>
    match entGet d p with
    | some v => walkPath v rest
    | none => none
  | _, _ :: _ => none

/-- Path loop of get_mapped_value (model.py lines 141-159): first truthy hit
among the mapped paths, dotted paths walking nested dicts and flat paths
read directly. -/
def tryPaths (ent : Entity) : List String → Option PyVal
  | [] => none
  | path :: rest =>
    let hit := if path.contains (Char.ofNat 46)
      then walkPath (.vdict ent) (path.splitOn ".")
      else entGet ent path
    match hit with
    | some v => if pyTruthy v then some v else tryPaths ent rest
    | none => tryPaths ent rest

/-- Hardcoded fallbacks of get_mapped_value (model.py lines 161-169);
features other than role / age / address fall through to the default. -/
def fallbackValue (ent : Entity) (featureName : String) (dflt : Option PyVal) :
    Option PyVal :=
  if featureName == "role" then
    pyOrV (entGet ent "role") (childGet (entGet ent "employment") "role")
  else if featureName == "age" then
    pyOrV (entGet ent "bornDate") (childGet (entGet ent "person") "bornDate")
  else if featureName == "address" then
    pyOrV (entGet ent "address") (childGet (entGet ent "person") "address")
  else dflt

/-- model.py get_mapped_value, lines 138-169. -/
def getMappedValue (mappings : Option (List (String × List String)))
    (ent : Entity) (featureName : String) (dflt : Option PyVal) : Option PyVal :=
  let paths : Option (List String) :=
    match mappings with
    | some m => (m.find? (fun p => p.1 == featureName)).map (·.2)
    | none => none
  match paths with
  | some ps =>
    match tryPaths ent ps with
    | some v => some v
    | none => fallbackValue ent featureName dflt
  | none => fallbackValue ent featureName dflt

/-- model.py get_age, lines 171-178.  Date parsing and the wall clock of
utils.date_utils are abstracted as parameters; `now` and parsed dates are day
numbers. -/
def getAge (parseDate : PyVal → Option Int) (now : Int) (born : Option PyVal) :
    Rat :=
  match born with
  | none => 0.5
  | some b =>
    if !pyTruthy b then 0.5
    else
      match parseDate b with
      | none => 0.5
      | some d =>
        let age : Int := (now - d).fdiv 365
        ((min (max age 18) 70 : Int) : Rat) / 70

/-- model.py get_distance, lines 180-185: missing data is never penalised as
confirmed distance. -/
def getDistance (empAddr custAddr : Option PyVal) : Rat :=
  if !truthyOpt empAddr || !truthyOpt custAddr then 0.1
  else if (pyValStr (empAddr.getD .vnone)).map Char.toLower
      == (pyValStr (custAddr.getD .vnone)).map Char.toLower then 0
  else 0.3

/-- model.py normalize_role, lines 187-198 (the scorer-side normaliser with
keyword canonicalisation; distinct from engine.py norm_role). -/
def scorerNormalizeRole (r : Option PyVal) : List Char :=
  if !truthyOpt r then "WORKER".data
  else
    let u := pyStrip (pyUpper (pyValStr (r.getD .vnone)).data)
    if strContains u "SVILUPPATORE".data || strContains u "DEV".data then
      "DEVELOPER".data
    else if strContains u "PULIZI".data || strContains u "CLEAN".data then
      "CLEANER".data
    else if strContains u "OPERA".data then "WORKER".data
    else if strContains u "MANUTEN".data || strContains u "TECNICO".data then
      "MAINTENANCE".data
    else if strContains u "COORDINA".data || strContains u "RESPONSABILE".data
        || strContains u "AMMINISTRA".data || strContains u "MANAGER".data then
      "MANAGER".data
    else if strContains u "MAGAZZIN".data || strContains u "LOGISTIC".data then
      "LOGISTICS".data
    else if strContains u "IMPIEGATO".data || strContains u "SEGRETARIA".data
        || strContains u "UFFICIO".data then
      "OFFICE".data
    else if strContains u "AUTISTA".data || strContains u "DRIVER".data
        || strContains u "CONSEGNA".data then
      "DRIVER".data
    else u

/-- UTF-8 encoding of one character, as Python str.encode produces. -/
def utf8Char (c : Char) : List Nat :=
  let n := c.toNat
  if n < 128 then [n]
  else if n < 2048 then [192 + n / 64, 128 + n % 64]
  else if n < 65536 then [224 + n / 4096, 128 + n / 64 % 64, 128 + n % 64]
  else [240 + n / 262144, 128 + n / 4096 % 64, 128 + n / 64 % 64, 128 + n % 64]

/-- UTF-8 encoding of a character list. -/
def utf8Encode (cs : List Char) : List Nat := cs.flatMap utf8Char

/-- zlib.adler32 over a byte list (model.py line 247): running sums modulo
65521, low half the byte sum plus one, high half the sum of prefix sums. -/
def adler32 (bs : List Nat) : Nat :=
  let st := bs.foldl
    (fun ab b => ((ab.1 + b) % 65521, (ab.2 + (ab.1 + b) % 65521) % 65521))
    ((1 : Nat), (0 : Nat))
  st.2 * 65536 + st.1

/-- model.py extract_features, lines 127-280, on raw entity dicts.
`allRoles` mirrors the all_roles argument of the Python signature, which the
body never reads — that is the determinism property of claim C6.  The final
np.nan_to_num is the identity on rationals. -/
def extractFeatures (parseDate : PyVal → Option Int) (now : Int)
    (emp shift : Entity) (allRoles : Option (List String))
    (mappings : Option (List (String × List String))) : FeatureVec :=
  let rawEmpRole := getMappedValue mappings emp "role_match" (entGet emp "role")
  let shiftRoleNorm := scorerNormalizeRole (entGet shift "role")
  let empRoleNorm := scorerNormalizeRole rawEmpRole
  let roleMatch : Rat :=
    if empRoleNorm == shiftRoleNorm then 1
    else if strContains shiftRoleNorm empRoleNorm
        || strContains empRoleNorm shiftRoleNorm then 1
    else 0
  let startTimeStr := match entGet shift "start_time" with
    | some (.vstr s) => s
    | _ => "08:00"
  let startHour : Nat := ((startTimeStr.splitOn ":").headD "").toNat?.getD 0
  let timeFeature : Rat := (startHour : Rat) / 24
  let dayFeature : Rat :=
    match parseDate ((entGet shift "date").getD (.vstr "2024-01-01")) with
    | some d => ((d.emod 7 : Int) : Rat) / 6
    | none => 0.5
  let ageFeature := getAge parseDate now (getMappedValue mappings emp "age" none)
  let distFeature := getDistance (getMappedValue mappings emp "distance" none)
    (entGet shift "customer_address")
  let punctuality : Rat :=
    match getMappedValue mappings emp "punctuality" (some (.vnum (95 / 100))) with
    | some (.vnum q) => q
    | some (.vbool b) => if b then 1 else 0
    | _ => 0.95
  let keywords : Rat := 0.5
  let seniority : Rat :=
    min (((pyValStr ((entGet emp "id").getD (.vstr ""))).length : Rat) / 10) 1
  let roleHash : Nat := adler32 (utf8Encode (scorerNormalizeRole (entGet shift "role"))) % 1000
  let roleIdxFeature : Rat := (roleHash : Rat) / 1000
  let vehicleFeature : Rat :=
    if truthyOpt (entGet shift "selectVehicleRequired") then
      if truthyOpt (getMappedValue mappings emp "vehicle_req" none) then 1 else 0
    else 1
  let shiftProjId : String :=
    match entGet shift "project" with
    | some (.vdict d) => pyValStr ((entGet d "id").getD .vnone)
    | some v => if pyTruthy v then pyValStr v else ""
    | none => ""
  let empProjects : List PyVal :=
    match entGet emp "project_ids" with
    | some (.vlist l) => l
    | _ => []
  let projectAffinity : Rat :=
    if shiftProjId != "" && (empProjects.map pyValStr).contains shiftProjId then 1
    else
      match getMappedValue mappings emp "project_affinity" none with
      | some pv => if pyTruthy pv && (pyValStr pv == shiftProjId) then 1 else 0
      | none => 0
  { roleMatch := roleMatch
    timeOfDay := timeFeature
    dayOfWeek := dayFeature
    ageNorm := ageFeature
    distance := distFeature
    punctuality := punctuality
    keywords := keywords
    seniority := seniority
    roleIdx := roleIdxFeature
    vehicle := vehicleFeature
    projectAffinity := projectAffinity }

/-- Claim C6: the role-index feature is a fixed string hash of the normalised
shift role, so two extract_features calls for the same pair agree on it even
when supplied different candidate-role lists. -/
theorem c6_role_index_stability (parseDate : PyVal → Option Int) (now : Int)
    (emp shift : Entity) (mappings : Option (List (String × List String)))
    (roles1 roles2 : Option (List String)) :
    (extractFeatures parseDate now emp shift roles1 mappings).roleIdx
        = (extractFeatures parseDate now emp shift roles2 mappings).roleIdx ∧
    (extractFeatures parseDate now emp shift roles1 mappings).roleIdx
        = ((adler32 (utf8Encode (scorerNormalizeRole (entGet shift "role"))) % 1000
            : Nat) : Rat) / 1000 :=
  ⟨rfl, rfl⟩

/-- Unavailability record as consumed by solve_schedule; the optional time
window fields are carried through from the request (routers/worker.py lines
118-127). -/
structure Unav where
  employeeId : Option String
  date : Int
  startT : Option (Nat × Nat)
  endT : Option (Nat × Nat)
deriving DecidableEq, Repr

/-- Labor profile as loaded by engine.py lines 128-134. -/
structure LaborProfile where
  maxWeeklyHours : Rat
  maxDailyHours : Rat
  maxConsecutiveDays : Int
  minRestHours : Rat
deriving DecidableEq, Repr

/-- AlgorithmConfig entity; only the field the constraint builder reads. -/
structure TenantConfig where
  maxHoursWeekly : Option Rat
deriving DecidableEq, Repr

/-- engine.py get_minutes, line 542. -/
def getMinutes (h m : Nat) : Int := h * 60 + m

/-- Minutes into the day the shift starts. -/
def shiftStartMin (s : Shift) : Int := getMinutes s.startH s.startM

/-- Minutes into the day the shift ends. -/
def shiftEndMin (s : Shift) : Int := getMinutes s.endH s.endM

/-- engine.py lines 551-555: duration with cross-midnight wrap. -/
def shiftDuration (s : Shift) : Int :=
  let d := shiftEndMin s - shiftStartMin s
  if d < 0 then d + 1440 else d

/-- engine.py line 549: the first shift date anchors absolute time; on an
empty list the engine falls back to the current date, which is immaterial
because no pair exists then. -/
def baseDate (shifts : List Shift) (nowDate : Int) : Int :=
  match shifts with
  | [] => nowDate
  | s :: _ => s.date

/-- Absolute start minute of a shift, engine.py line 559. -/
def absStart (base : Int) (s : Shift) : Int :=
  (s.date - base) * 1440 + shiftStartMin s

/-- Absolute end minute of a shift, engine.py line 560. -/
def absEnd (base : Int) (s : Shift) : Int := absStart base s + shiftDuration s

/-- Python int() truncation toward zero, computed on the reduced fraction. -/
def pyInt (q : Rat) : Int := q.num.tdiv (q.den : Int)

/-- engine.py lines 612-623: resolve the weekly cap of one employee in
minutes.  A truthy labor_profile_id found in the profile store wins;
otherwise the tenant max_hours_weekly; a missing value makes safe_int fall
back to its 2400 default. -/
def resolveMaxWeeklyMinutes (profiles : List (String × LaborProfile))
    (cfg : Option TenantConfig) (e : Emp) : Int :=
  let fromCfg : Option Rat :=
    match cfg with
    | some c => c.maxHoursWeekly
    | none => some 40
  let hours : Option Rat :=
    match e.laborProfileId with
    | some pid =>
      if pid == "" then fromCfg
      else
        match (profiles.find? (fun p => p.1 == pid)).map (·.2) with
        | some p => some p.maxWeeklyHours
        | none => fromCfg
    | none => fromCfg
  match hours with
  | some q => pyInt (q * 60)
  | none => 2400

/-- engine.py line 520: id-to-name dictionary over the employees, later keys
overwriting earlier ones, with dict.get default "". -/
def nameOfId (emps : List Emp) (k : String) : String :=
  match emps.reverse.find? (fun e => firstTruthy [e.idField, e.employeeId] == k) with
  | some e => firstTruthy [e.fullName, e.nameField]
  | none => ""

/-- Worker-match test of engine.py line 531: raw identity equality (None
equals None in Python) or equality of the uppercased-trimmed name resolved
from the employee_id of the record through the id-to-name map. -/
def unavMatchesWorker (emps : List Emp) (u : Unav) (e : Emp) : Bool :=
  let uEid := firstTruthy [u.employeeId]
  let uName := pyStrip (pyUpper (nameOfId emps uEid).data)
  let eName := pyStrip (pyUpper (firstTruthy [e.fullName, e.nameField]).data)
  u.employeeId == e.idField || (uName != [] && uName == eName)

/-- engine.py lines 526-533: true when some unavailability record matches
this worker and the shift date.  The start_time / end_time of the record are
never consulted. -/
def blockedPair (emps : List Emp) (unavs : List Unav) (e : Emp) (s : Shift) :
    Bool :=
  unavs.any fun u => unavMatchesWorker emps u e && u.date == s.date

/-- Pairs whose variable constraint B forces to zero (engine.py lines
521-533). -/
def zeroedPairs (emps : List Emp) (shifts : List Shift) (unavs : List Unav) :
    List (Nat × Nat) :=
  (buildPairs emps shifts).filter fun p =>
    blockedPair emps unavs (emps.getD p.1 blankEmp) (shifts.getD p.2 blankShift)

/-- Constraint B as a condition on solutions. -/
def unavailSat (emps : List Emp) (shifts : List Shift) (unavs : List Unav)
    (sol : Nat → Nat → Bool) : Bool :=
  (zeroedPairs emps shifts unavs).all fun p => sol p.1 p.2 == false

/-- Constraint C.1 of engine.py lines 567-583 (AddNoOverlap over optional
intervals keyed on presence): two distinct shifts assigned to one employee
occupy disjoint absolute intervals.  Shifts in scope have positive duration,
for which pairwise disjointness is the NoOverlap semantics. -/
def noOverlapSat (shifts : List Shift) (pairs : List (Nat × Nat)) (base : Int)
    (sol : Nat → Nat → Bool) : Bool :=
  pairs.all fun p =>
    pairs.all fun q =>
      !(p.1 == q.1 && p.2 != q.2 && sol p.1 p.2 && sol q.1 q.2)
        || decide (absEnd base (shifts.getD p.2 blankShift)
            ≤ absStart base (shifts.getD q.2 blankShift))
        || decide (absEnd base (shifts.getD q.2 blankShift)
            ≤ absStart base (shifts.getD p.2 blankShift))

/-- engine.py line 587: the rest gap is the hard-coded constant 660 minutes;
the labor profile min_rest_hours is loaded but never applied (TODO at line
618). -/
def restPeriod : Int := 660

/-- Day offsets (with repetition) of the pair variables of one employee, in
variable insertion order — the source of the emp_shifts_by_day keys
(engine.py lines 590-595). -/
def empDayOffsets (shifts : List Shift) (pairs : List (Nat × Nat)) (base : Int)
    (eIdx : Nat) : List Int :=
  (pairs.filter fun p => p.1 == eIdx).map fun p =>
    (shifts.getD p.2 blankShift).date - base

/-- Shift indices of one employee on one day offset, in variable order. -/
def dayShiftIdxs (shifts : List Shift) (pairs : List (Nat × Nat)) (base : Int)
    (eIdx : Nat) (d : Int) : List Nat :=
  (pairs.filter fun p => p.1 == eIdx
    && ((shifts.getD p.2 blankShift).date - base) == d).map (·.2)

/-- sorted(days_map.keys()) of engine.py line 598: the distinct active day
offsets in ascending order. -/
def sortedDays (shifts : List Shift) (pairs : List (Nat × Nat)) (base : Int)
    (eIdx : Nat) : List Int :=
  List.insertionSort (· ≤ ·) (empDayOffsets shifts pairs base eIdx).dedup

/-- The days the lookahead of engine.py line 603 pairs with position i: the
next one or two entries of the ascending active-day list. -/
def nextDaysWindow (sd : List Int) (i : Nat) : List Int := (sd.drop (i + 1)).take 2

/-- All (s1, s2) shift-index pairs the rest constraint of engine.py lines
597-609 is emitted for, for one employee. -/
def restPairsFor (shifts : List Shift) (pairs : List (Nat × Nat)) (base : Int)
    (eIdx : Nat) : List (Nat × Nat) :=
  let sd := sortedDays shifts pairs base eIdx
  (List.range sd.length).flatMap fun i =>
    (nextDaysWindow sd i).flatMap fun d2 =>
      (dayShiftIdxs shifts pairs base eIdx (sd.getD i 0)).flatMap fun s1 =>
        (dayShiftIdxs shifts pairs base eIdx d2).map fun s2 => (s1, s2)

/-- Constraint C.2, inter-day rest (engine.py line 609):
End(s1) + 660 <= Start(s2) whenever both are assigned. -/
def restSat (shifts : List Shift) (pairs : List (Nat × Nat)) (base : Int)
    (numEmps : Nat) (sol : Nat → Nat → Bool) : Bool :=
  (List.range numEmps).all fun eIdx =>
    (restPairsFor shifts pairs base eIdx).all fun q =>
      !(sol eIdx q.1 && sol eIdx q.2)
        || decide (absEnd base (shifts.getD q.1 blankShift) + restPeriod
            ≤ absStart base (shifts.getD q.2 blankShift))

/-- ISO-week bucket key of engine.py line 629.  Two dates share the
isocalendar (year, week) pair exactly when they fall in the same
Monday-started week; with day 0 a Monday that week is the floor division of
the day number by 7, so bucketing by this key is bucketing by
isocalendar()[:2]. -/
def isoWeekKey (d : Int) : Int := d.fdiv 7

/-- Minutes assigned to one employee in one ISO-week bucket. -/
def assignedWeekMinutes (shifts : List Shift) (pairs : List (Nat × Nat))
    (sol : Nat → Nat → Bool) (eIdx : Nat) (wk : Int) : Int :=
  ((pairs.filter fun p => p.1 == eIdx
      && isoWeekKey (shifts.getD p.2 blankShift).date == wk
      && sol p.1 p.2).map fun p => shiftDuration (shifts.getD p.2 blankShift)).sum

/-- Constraint D, weekly cap per employee (engine.py lines 611-638). -/
def weeklySat (emps : List Emp) (shifts : List Shift) (pairs : List (Nat × Nat))
    (profiles : List (String × LaborProfile)) (cfg : Option TenantConfig)
    (sol : Nat → Nat → Bool) : Bool :=
  (List.range emps.length).all fun eIdx =>
    (shifts.map fun s => isoWeekKey s.date).all fun wk =>
      decide (assignedWeekMinutes shifts pairs sol eIdx wk
        ≤ resolveMaxWeeklyMinutes profiles cfg (emps.getD eIdx blankEmp))

/-- Constraint E, minimum daily presence (engine.py lines 640-654): a day
with any assignment carries at least 60 assigned minutes.  The works_on_day
variable is an equivalence-reified indicator, so its elimination leaves this
implication. -/
def minDailySat (shifts : List Shift) (pairs : List (Nat × Nat)) (base : Int)
    (numEmps : Nat) (sol : Nat → Nat → Bool) : Bool :=
  (List.range numEmps).all fun eIdx =>
    (empDayOffsets shifts pairs base eIdx).all fun d =>
      let idxs := dayShiftIdxs shifts pairs base eIdx d
      !(idxs.any fun sIdx => sol eIdx sIdx)
        || decide (60 ≤ ((idxs.filter fun sIdx => sol eIdx sIdx).map
            fun sIdx => shiftDuration (shifts.getD sIdx blankShift)).sum)

/-- Conjunction of every hard constraint the CP-SAT model imposes on the pair
variables and unassigned indicators (engine.py lines 513-654).  The remaining
model variables (works_on_day, is_together, is_isolated) are either
equivalence-reified or only touched by the objective, so the projection of
the solution set onto (sol, uns) is exactly this predicate. -/
def modelSat (emps : List Emp) (shifts : List Shift) (unavs : List Unav)
    (profiles : List (String × LaborProfile)) (cfg : Option TenantConfig)
    (nowDate : Int) (sol : Nat → Nat → Bool) (uns : Nat → Bool) : Bool :=
  let pairs := buildPairs emps shifts
  let base := baseDate shifts nowDate
  coverageSat pairs sol uns emps.length shifts.length
    && unavailSat emps shifts unavs sol
    && noOverlapSat shifts pairs base sol
    && restSat shifts pairs base emps.length sol
    && weeklySat emps shifts pairs profiles cfg sol
    && minDailySat shifts pairs base emps.length sol

/-- Minimum rest in minutes the claim attributes to a worker: the labor
profile min_rest_hours times 60, default 660. -/
def claimMinRestMinutes (profiles : List (String × LaborProfile)) (e : Emp) :
    Rat :=
  match e.laborProfileId with
  | some pid =>
    match (profiles.find? (fun p => p.1 == pid)).map (·.2) with
    | some p => p.minRestHours * 60
    | none => 660
  | none => 660

/-- The 1-2 next-active-day lookahead window of a day: the first two strictly
later active days of the worker. -/
def nextActiveDays (sd : List Int) (d1 : Int) : List Int :=
  (sd.filter fun d => decide (d1 < d)).take 2

/-- Claim C3 exactly as stated: every pair of shifts assigned to one worker
on days within the lookahead window keeps a gap of at least the labor
profile minimum rest of that worker. -/
def claimC3Bool (emps : List Emp) (shifts : List Shift)
    (profiles : List (String × LaborProfile)) (nowDate : Int)
    (sol : Nat → Nat → Bool) : Bool :=
  let pairs := buildPairs emps shifts
  let base := baseDate shifts nowDate
  (List.range emps.length).all fun eIdx =>
    pairs.all fun p =>
      pairs.all fun q =>
        !(p.1 == eIdx && q.1 == eIdx && sol eIdx p.2 && sol eIdx q.2
          && (nextActiveDays (sortedDays shifts pairs base eIdx)
              ((shifts.getD p.2 blankShift).date - base)).contains
              ((shifts.getD q.2 blankShift).date - base))
        || decide (claimMinRestMinutes profiles (emps.getD eIdx blankEmp)
            ≤ ((absStart base (shifts.getD q.2 blankShift)
              - absEnd base (shifts.getD p.2 blankShift) : Int) : Rat))

/-- Worker whose labor profile demands 12 hours of rest. -/
def cexEmp : Emp :=
  { blankEmp with
      idField := some "W1"
      fullName := some "Worker One"
      role := some "WORKER"
      laborProfileId := some "P12" }

/-- Profile store carrying that 12-hour profile. -/
def cexProfiles : List (String × LaborProfile) :=
  [("P12",
    { maxWeeklyHours := 40, maxDailyHours := 8, maxConsecutiveDays := 6,
      minRestHours := 12 })]

/-- Two shifts on consecutive days with a 690-minute gap between the end of
the first (day 0, 08:00-16:00) and the start of the second (day 1,
03:30-11:30). -/
def cexShifts : List Shift :=
  [⟨"sh1", 0, 8, 0, 16, 0, some "WORKER", none⟩,
   ⟨"sh2", 1, 3, 30, 11, 30, some "WORKER", none⟩]

/-- Counterexample to claim C3 as stated: an assignment satisfying every hard
constraint of the model gives both shifts, 690 minutes apart, to a worker
whose labor profile demands 720 minutes of rest — the model only enforces the
hard-coded 660. -/
theorem c3_rest_claim_counterexample :
    modelSat [cexEmp] cexShifts [] cexProfiles none 0 (fun _ _ => true)
        (fun _ => false) = true ∧
    claimC3Bool [cexEmp] cexShifts cexProfiles 0 (fun _ _ => true) = false := by
  exact ⟨by with_unfolding_all rfl, by with_unfolding_all rfl⟩

theorem filter_lt_eq_drop {l : List Int} :
    l.Pairwise (· < ·) → ∀ i d1, l.get? i = some d1 →
      (l.filter fun d => decide (d1 < d)) = l.drop (i + 1) := by
  induction l with
  | nil => intro _ i d1 h; cases h
  | cons x xs ih =>
    intro hp i d1 hget
    obtain ⟨hx, hxs⟩ := List.pairwise_cons.mp hp
    cases i with
    | zero =>
      have hxd : x = d1 := by simpa using hget
      subst hxd
      rw [List.filter_cons]
      have hc : decide (x < x) = false := by simp
      rw [hc]
      simp only [Bool.false_eq_true, if_false, List.drop_succ_cons, List.drop_zero]
      rw [List.filter_eq_self.mpr]
      intro d hd
      simpa using hx d hd
    | succ j =>
      have hget2 : xs.get? j = some d1 := by simpa using hget
      have hd1 : x < d1 := hx d1 (List.get?_mem hget2)
      rw [List.filter_cons]
      have hc : decide (d1 < x) = false := by
        simp only [decide_eq_false_iff_not]
        omega
      rw [hc]
      simp only [Bool.false_eq_true, if_false, List.drop_succ_cons]
      exact ih hxs j d1 hget2

theorem mem_sortedDays {shifts : List Shift} {pairs : List (Nat × Nat)}
    {base : Int} {eIdx : Nat} {d : Int} :
    d ∈ sortedDays shifts pairs base eIdx ↔
      d ∈ empDayOffsets shifts pairs base eIdx := by
  unfold sortedDays
  rw [(List.perm_insertionSort _ _).mem_iff, List.mem_dedup]

theorem sortedDays_pairwise (shifts : List Shift) (pairs : List (Nat × Nat))
    (base : Int) (eIdx : Nat) :
    (sortedDays shifts pairs base eIdx).Pairwise (· < ·) := by
  unfold sortedDays
  have hs := List.sorted_insertionSort (α := Int) (· ≤ ·)
    (empDayOffsets shifts pairs base eIdx).dedup
  have hnd : (List.insertionSort (· ≤ ·)
      (empDayOffsets shifts pairs base eIdx).dedup).Nodup :=
    (List.perm_insertionSort _ _).nodup_iff.mpr (List.nodup_dedup _)
  exact hs.lt_of_le hnd

theorem mem_dayShiftIdxs {shifts : List Shift} {pairs : List (Nat × Nat)}
    {base : Int} {eIdx : Nat} {d : Int} {s : Nat} :
    s ∈ dayShiftIdxs shifts pairs base eIdx d ↔
      (eIdx, s) ∈ pairs ∧ ((shifts.getD s blankShift).date - base) = d := by
  unfold dayShiftIdxs
  simp only [List.mem_map, List.mem_filter]
  constructor
  · rintro ⟨p, ⟨hp, hcond⟩, rfl⟩
    rcases p with ⟨a, b⟩
    simp only [Bool.and_eq_true, beq_iff_eq] at hcond
    obtain ⟨h1, h2⟩ := hcond
    subst h1
    exact ⟨hp, h2⟩
  · rintro ⟨hp, hd⟩
    refine ⟨(eIdx, s), ⟨hp, ?_⟩, rfl⟩
    simp only [Bool.and_eq_true, beq_iff_eq]
    exact ⟨trivial, hd⟩

theorem mem_restPairsFor {shifts : List Shift} {pairs : List (Nat × Nat)}
    {base : Int} {eIdx s1 s2 : Nat}
    (hp1 : (eIdx, s1) ∈ pairs) (hp2 : (eIdx, s2) ∈ pairs)
    (hwin : ((shifts.getD s2 blankShift).date - base) ∈
      nextActiveDays (sortedDays shifts pairs base eIdx)
        ((shifts.getD s1 blankShift).date - base)) :
    (s1, s2) ∈ restPairsFor shifts pairs base eIdx := by
  have hd1mem : ((shifts.getD s1 blankShift).date - base) ∈
      sortedDays shifts pairs base eIdx := by
    rw [mem_sortedDays]
    unfold empDayOffsets
    exact List.mem_map.mpr ⟨(eIdx, s1), List.mem_filter.mpr ⟨hp1, by simp⟩, rfl⟩
  obtain ⟨i, hi⟩ := List.get?_of_mem hd1mem
  have hfil := filter_lt_eq_drop (sortedDays_pairwise shifts pairs base eIdx) i
    ((shifts.getD s1 blankShift).date - base) hi
  unfold nextActiveDays at hwin
  rw [hfil] at hwin
  have hilt : i < (sortedDays shifts pairs base eIdx).length :=
    (List.get?_eq_some.mp hi).1
  have hgetD : (sortedDays shifts pairs base eIdx).getD i 0
      = (shifts.getD s1 blankShift).date - base := by
    rw [List.getD_eq_getElem?_getD, ← List.get?_eq_getElem?, hi]
    rfl
  unfold restPairsFor
  simp only [List.mem_flatMap, List.mem_range]
  refine ⟨i, hilt, (shifts.getD s2 blankShift).date - base, hwin, ?_⟩
  simp only [List.mem_flatMap, List.mem_map]
  refine ⟨s1, ?_, s2, ?_, rfl⟩
  · rw [hgetD]
    exact mem_dayShiftIdxs.mpr ⟨hp1, rfl⟩
  · exact mem_dayShiftIdxs.mpr ⟨hp2, rfl⟩

/-- Claim C3 amended: the rest law the model actually enforces uses the
hard-coded 660-minute constant (engine.py line 587), not the labor profile
min_rest_hours, which is loaded but never applied: on days within the 1-2
next-active-day lookahead window, two shifts assigned to one worker keep a
continuous cross-midnight gap of at least 660 minutes. -/
theorem c3_rest_660 (emps : List Emp) (shifts : List Shift) (unavs : List Unav)
    (profiles : List (String × LaborProfile)) (cfg : Option TenantConfig)
    (nowDate : Int) (sol : Nat → Nat → Bool) (uns : Nat → Bool)
    (hsat : modelSat emps shifts unavs profiles cfg nowDate sol uns = true)
    (eIdx s1 s2 : Nat)
    (hp1 : (eIdx, s1) ∈ buildPairs emps shifts)
    (hp2 : (eIdx, s2) ∈ buildPairs emps shifts)
    (hs1 : sol eIdx s1 = true) (hs2 : sol eIdx s2 = true)
    (hwin : ((shifts.getD s2 blankShift).date - baseDate shifts nowDate) ∈
      nextActiveDays
        (sortedDays shifts (buildPairs emps shifts) (baseDate shifts nowDate) eIdx)
        ((shifts.getD s1 blankShift).date - baseDate shifts nowDate)) :
    absEnd (baseDate shifts nowDate) (shifts.getD s1 blankShift) + 660
      ≤ absStart (baseDate shifts nowDate) (shifts.getD s2 blankShift) := by
  simp only [modelSat, Bool.and_eq_true] at hsat
  obtain ⟨⟨⟨⟨⟨_, _⟩, _⟩, hrest⟩, _⟩, _⟩ := hsat
  have hlt : eIdx < emps.length := by
    obtain ⟨e, s, he, _, _⟩ := mem_buildPairs.mp hp1
    exact (List.get?_eq_some.mp he).1
  have hall := List.all_eq_true.mp hrest eIdx (List.mem_range.mpr hlt)
  have hmemr := mem_restPairsFor hp1 hp2 hwin
  have hc := List.all_eq_true.mp hall (s1, s2) hmemr
  simp only [hs1, hs2, Bool.and_self, Bool.not_true, Bool.false_or,
    decide_eq_true_eq, restPeriod] at hc
  exact hc

/-- Witness for the amended C3 at the concrete counterexample instance: both
assignments there satisfy the 660-minute law. -/
theorem c3_rest_660_witness :
    modelSat [cexEmp] cexShifts [] cexProfiles none 0 (fun _ _ => true)
        (fun _ => false) = true ∧
    absEnd (baseDate cexShifts 0) (cexShifts.getD 0 blankShift) + 660
      ≤ absStart (baseDate cexShifts 0) (cexShifts.getD 1 blankShift) := by
  have hsat : modelSat [cexEmp] cexShifts [] cexProfiles none 0 (fun _ _ => true)
      (fun _ => false) = true := by with_unfolding_all rfl
  exact ⟨hsat,
    c3_rest_660 [cexEmp] cexShifts [] cexProfiles none 0 (fun _ _ => true)
      (fun _ => false) hsat 0 0 1 (by decide) (by decide) rfl rfl (by decide)⟩

/-- Overlap of an optional record window with the shift interval, in minutes
of that day; a record without a window means all day (spec §3). -/
def windowOverlaps (u : Unav) (s : Shift) : Bool :=
  match u.startT, u.endT with
  | some a, some b =>
    decide (getMinutes a.1 a.2 < shiftEndMin s)
      && decide (shiftStartMin s < getMinutes b.1 b.2)
  | _, _ => true

/-- Claim C5 blocking condition exactly as stated: worker match, matching
date, and overlapping time window when one is specified. -/
def specBlockedC5 (emps : List Emp) (unavs : List Unav) (e : Emp) (s : Shift) :
    Bool :=
  unavs.any fun u =>
    unavMatchesWorker emps u e && u.date == s.date && windowOverlaps u s

/-- Worker of the C5 counterexample. -/
def c5Emp : Emp :=
  { blankEmp with
      idField := some "W1"
      fullName := some "Worker One"
      role := some "WORKER" }

/-- Morning shift 08:00-12:00 on day 0. -/
def c5Shift : Shift := ⟨"sh1", 0, 8, 0, 12, 0, some "WORKER", none⟩

/-- Unavailability of the same worker on day 0 limited to 20:00-22:00. -/
def c5Unav : Unav := ⟨some "W1", 0, some (20, 0), some (22, 0)⟩

/-- Counterexample to claim C5 as stated: a record whose 20:00-22:00 window
does not overlap the 08:00-12:00 shift still forces the pair variable to
zero, because the engine never reads the window. -/
theorem c5_unavailability_claim_counterexample :
    (0, 0) ∈ zeroedPairs [c5Emp] [c5Shift] [c5Unav] ∧
    specBlockedC5 [c5Emp] [c5Unav] c5Emp c5Shift = false := by
  exact ⟨by decide, by decide⟩

/-- Claim C5 amended: an eligible pair variable is forced to zero exactly
when some unavailability record matches the shift date and the worker (by
identity or by uppercased-trimmed full-name equality resolved through the
employee id-to-name map); the time window of the record is ignored, every
matching-date record acting as all-day.  Every model solution sets such a
variable to false. -/
theorem c5_unavailability_zeroing (emps : List Emp) (shifts : List Shift)
    (unavs : List Unav) (eIdx sIdx : Nat) :
    ((eIdx, sIdx) ∈ zeroedPairs emps shifts unavs ↔
      ((eIdx, sIdx) ∈ buildPairs emps shifts ∧
        ∃ u ∈ unavs,
          unavMatchesWorker emps u (emps.getD eIdx blankEmp) = true ∧
          u.date = (shifts.getD sIdx blankShift).date)) ∧
    (∀ profiles cfg nowDate sol uns,
      modelSat emps shifts unavs profiles cfg nowDate sol uns = true →
      (eIdx, sIdx) ∈ zeroedPairs emps shifts unavs →
      sol eIdx sIdx = false) := by
  constructor
  · unfold zeroedPairs blockedPair
    rw [List.mem_filter]
    constructor
    · rintro ⟨hmem, hblk⟩
      rw [List.any_eq_true] at hblk
      obtain ⟨u, hu, hcond⟩ := hblk
      simp only [Bool.and_eq_true, beq_iff_eq] at hcond
      exact ⟨hmem, u, hu, hcond.1, hcond.2⟩
    · rintro ⟨hmem, u, hu, hmatch, hdate⟩
      refine ⟨hmem, ?_⟩
      rw [List.any_eq_true]
      refine ⟨u, hu, ?_⟩
      simp only [Bool.and_eq_true, beq_iff_eq]
      exact ⟨hmatch, hdate⟩
  · intro profiles cfg nowDate sol uns hsat hz
    simp only [modelSat, Bool.and_eq_true] at hsat
    obtain ⟨⟨⟨⟨⟨_, hunav⟩, _⟩, _⟩, _⟩, _⟩ := hsat
    have := List.all_eq_true.mp hunav (eIdx, sIdx) hz
    simpa using this

/-- Witness for the amended C5 at the concrete instance: the blocked pair is
in the zeroed set and the all-false assignment (which satisfies the model) is
forced there. -/
theorem c5_unavailability_zeroing_witness :
    (0, 0) ∈ zeroedPairs [c5Emp] [c5Shift] [c5Unav] ∧
    (fun _ _ => false : Nat → Nat → Bool) 0 0 = false := by
  have hiff := c5_unavailability_zeroing [c5Emp] [c5Shift] [c5Unav] 0 0
  have hmem : (0, 0) ∈ zeroedPairs [c5Emp] [c5Shift] [c5Unav] :=
    hiff.1.mpr ⟨by decide, c5Unav, by decide, by decide, by decide⟩
  exact ⟨hmem,
    hiff.2 [] none 0 (fun _ _ => false) (fun _ => true)
      (by with_unfolding_all rfl) hmem⟩

/-- Status of an AsyncJob record (spec §3, routers/schedule.py line 65,
routers/worker.py lines 33, 165, 171, 179). -/
inductive JobStatus where
  | queued
  | processing
  | completed
  | failed
deriving DecidableEq, Repr

/-- AsyncJob fields the background worker mutates (routers/worker.py).
Timestamps are in seconds. -/
structure Job where
  status : JobStatus
  resultPayload : Option (List ResultRec)
  errorMsg : Option String
  updatedAt : Int
deriving DecidableEq, Repr

/-- Outcome of the solve call inside the worker try block: solve_schedule
returned a list, or some step of the body raised. -/
inductive SolveOutcome where
  | finished : List ResultRec → SolveOutcome
  | crashed : String → SolveOutcome
deriving DecidableEq, Repr

/-- routers/worker.py lines 32-35: the pickup write marking the job
processing. -/
def pickupWrite (j : Job) (now : Int) : Job :=
  { j with status := .processing, updatedAt := now }

/-- routers/worker.py lines 37-183: the final record written for a job that
was picked up.  json.dumps of the result is modelled as carrying the list
itself; the Python `if result:` treats an empty list as falsy and writes
failed with the fixed message (lines 145, 170-174); any exception is caught
and written as failed with its detail (lines 176-183). -/
def solveWorkerFinal (j : Job) (outcome : SolveOutcome) (now : Int) : Job :=
  let j1 := pickupWrite j now
  match outcome with
  | .finished res =>
    if res.isEmpty then
      { j1 with status := .failed, errorMsg := some "Infeasible or No Solution" }
    else
      { j1 with status := .completed, resultPayload := some res }
  | .crashed msg =>
    { j1 with status := .failed, errorMsg := some msg }

/-- routers/worker.py lines 24-35: a job id not found in the store is
answered without any job write. -/
def solveWorker (j : Option Job) (outcome : SolveOutcome) (now : Int) :
    Option Job :=
  match j with
  | none => none
  | some job => some (solveWorkerFinal job outcome now)

/-- Modelled from the spec: the staleness threshold of spec §3 / §4.6 (5
minutes).  No code under src implements staleness for AsyncJob records — the
only 300-second staleness check, routers/training.py lines 361-378, guards
the global running flag — so the threshold and the force-reset below follow
the specification words. -/
def staleThresholdSeconds : Int := 300

/-- Modelled from the spec: a job that has been processing longer than the
staleness threshold is treated as abandoned. -/
def isStaleJob (j : Job) (now : Int) : Bool :=
  j.status == .processing && decide (now - j.updatedAt > staleThresholdSeconds)

/-- Modelled from the spec: force-reset of an abandoned job to a terminal
record the caller can observe, allowing recovery. -/
def forceResetStale (j : Job) (now : Int) : Job :=
  if isStaleJob j now then
    { j with
        status := .failed
        errorMsg := some "Job abandoned: stale processing state" }
  else j

/-- Claim C9: every job the worker picks up is marked processing on pickup
and, on every exit path including exceptions, ends in a terminal status —
completed with the serialized result or failed with error detail — and a job
processing longer than the 5-minute staleness threshold is treated as
abandoned and may be force-reset, so no job stays processing forever from
the caller perspective. -/
theorem c9_job_terminal_states (j : Job) (outcome : SolveOutcome)
    (now later : Int) (hstale : later - now > staleThresholdSeconds) :
    (pickupWrite j now).status = .processing ∧
    ((solveWorkerFinal j outcome now).status = .completed ∨
      (solveWorkerFinal j outcome now).status = .failed) ∧
    ((solveWorkerFinal j outcome now).status = .completed →
      (solveWorkerFinal j outcome now).resultPayload.isSome = true) ∧
    ((solveWorkerFinal j outcome now).status = .failed →
      (solveWorkerFinal j outcome now).errorMsg.isSome = true) ∧
    (∀ stuck : Job, stuck.status = .processing → stuck.updatedAt = now →
      isStaleJob stuck later = true ∧
      (forceResetStale stuck later).status ≠ .processing) := by
  refine ⟨rfl, ?_, ?_, ?_, ?_⟩
  · unfold solveWorkerFinal
    cases outcome with
    | finished res => cases hres : res.isEmpty <;> simp [hres, pickupWrite]
    | crashed m => simp [pickupWrite]
  · unfold solveWorkerFinal
    cases outcome with
    | finished res => cases hres : res.isEmpty <;> simp [hres, pickupWrite]
    | crashed m => simp [pickupWrite]
  · unfold solveWorkerFinal
    cases outcome with
    | finished res => cases hres : res.isEmpty <;> simp [hres, pickupWrite]
    | crashed m => simp [pickupWrite]
  · intro stuck hst hupd
    have hstale2 : isStaleJob stuck later = true := by
      unfold isStaleJob
      rw [hst, hupd]
      simp only [beq_self_eq_true, Bool.true_and, decide_eq_true_eq]
      exact hstale
    refine ⟨hstale2, ?_⟩
    unfold forceResetStale
    rw [hstale2]
    simp

/-- Witness for C9: a crashing worker run on a queued job ends failed, and a
job stuck processing for 990 seconds is stale. -/
theorem c9_job_terminal_states_witness :
    ((solveWorkerFinal ⟨.queued, none, none, 0⟩ (.crashed "boom") 10).status
        = .completed ∨
      (solveWorkerFinal ⟨.queued, none, none, 0⟩ (.crashed "boom") 10).status
        = .failed) ∧
    isStaleJob ⟨.processing, none, none, 10⟩ 1000 = true := by
  have h := c9_job_terminal_states ⟨.queued, none, none, 0⟩ (.crashed "boom")
    10 1000 (by decide)
  exact ⟨h.2.1, (h.2.2.2.2 ⟨.processing, none, none, 10⟩ rfl rfl).1⟩

end HR2O
